import Mathlib

/-!
Verification development for the JobiFy job-market pipeline.

The definitions below are a shallow embedding of the Python sources:
  - collect_jobs.py : keyword/category classifier (is_tech_job)
  - app.py          : skill extraction (extract_skills) and the
                      co-occurrence aggregation loop in main
  - local_llm.py    : the advice call (ask_llm) and its caller in app.py

Strings are modelled as lists of characters where convenient; Python
substring tests (the in operator) become substrOf; the regex search
with word boundaries in extract_skills is modelled position by position
with the standard semantics of the boundary assertion. The embedding
models the ASCII behaviour of lowercasing and of the word-character and
whitespace classes, which covers all vocabulary terms and all inputs
considered here.
-/

namespace JobiFy

/-- Positive keyword list TECH_KEYWORDS from collect_jobs.py. -/
def TECH_KEYWORDS : List String :=
  ["software engineer", "backend", "frontend", "full stack", "python", "java",
   "golang", "node", "django", "flask", "fastapi", "devops", "sre",
   "kubernetes", "docker", "terraform", "aws", "gcp", "azure",
   "machine learning", "ml", "ai"]

/-- Negative keyword list NON_TECH_KEYWORDS from collect_jobs.py. -/
def NON_TECH_KEYWORDS : List String :=
  ["support", "customer", "sales", "marketing", "recruiter", "designer",
   "content", "writer", "hr", "finance", "legal", "assistant"]

/-- Category allowlist ALLOWED_CATEGORIES from collect_jobs.py. -/
def ALLOWED_CATEGORIES : List String :=
  ["Back-End Programming", "Front-End Programming", "Full-Stack Programming",
   "Software Engineering", "Web Development", "Application Development",
   "DevOps and Sysadmin", "Cloud Infrastructure", "Site Reliability Engineering",
   "Platform Engineering", "Infrastructure Engineering",
   "AI / Machine Learning", "Data Engineering", "Data Science",
   "Applied Machine Learning", "MLOps",
   "Quality Assurance", "Test Automation", "Software Testing",
   "Mobile Development", "iOS Development", "Android Development",
   "Cross-Platform Development",
   "Security Engineering", "Application Security", "Cloud Security",
   "DevSecOps",
   "Systems Programming", "Embedded Systems", "Firmware Development",
   "Operating Systems",
   "Distributed Systems", "Microservices"]

/-- Python substring containment (needle in hay) on character lists. -/
def substrOf : List Char → List Char → Bool
  | needle, [] => needle.isEmpty
  | needle, c :: t => needle.isPrefixOf (c :: t) || substrOf needle t

/-- Per-character lowercasing, the semantics of the Python str.lower call
on ASCII text, returning the character list of the result. -/
def lowerStr (s : String) : List Char :=
  s.toList.map Char.toLower

/-- Embedding of is_tech_job from collect_jobs.py: reject when a negative
keyword occurs in the lowercased title-plus-description, otherwise accept
exactly when the raw category is in the allowlist and some positive
keyword occurs in the lowercased text. -/
def is_tech_job (title category description : String) : Bool :=
  let text := lowerStr (title ++ " " ++ description)
  if NON_TECH_KEYWORDS.any (fun word => substrOf word.toList text) then
    false
  else
    decide (category ∈ ALLOWED_CATEGORIES)
      && TECH_KEYWORDS.any (fun word => substrOf word.toList text)

/-- Flattened skill vocabulary FLAT_SKILLS from app.py. -/
def FLAT_SKILLS : List String :=
  ["python", "java", "javascript", "typescript", "golang", "rust", "c++",
   "ruby", "php", "swift", "kotlin", "sql",
   "react", "node", "django", "flask", "fastapi", "spring", "vue", "angular",
   "next.js", "rails", "pytorch", "tensorflow",
   "aws", "azure", "gcp", "docker", "kubernetes", "terraform", "jenkins",
   "linux", "ansible",
   "postgresql", "mysql", "mongodb", "redis", "elasticsearch", "dynamodb"]

/-- Word characters in the sense of the regex class used by app.py
(letters, digits and underscore on ASCII text). -/
def isWordChar (c : Char) : Bool :=
  c.isAlphanum || c == '_'

/-- Normalisation performed by extract_skills: lowercase the text, then
replace every character that is neither a word character nor whitespace
with a space. -/
def normalizeText (s : String) : List Char :=
  (lowerStr s).map (fun c => if isWordChar c || c.isWhitespace then c else ' ')

/-- Wordness of the character at a position, positions past the end
counting as non-word (the regex treats string edges as non-word). -/
def wordAt (text : List Char) (p : Nat) : Bool :=
  isWordChar (text.getD p ' ')

/-- The regex word-boundary assertion at position p: the wordness of the
character before p differs from the wordness of the character at p. -/
def boundaryAt (text : List Char) (p : Nat) : Bool :=
  match p with
  | 0 => wordAt text 0
  | q + 1 => wordAt text q != wordAt text (q + 1)

/-- One candidate match of the escaped term with boundary assertions on
both sides, anchored at position p of the text. -/
def matchTermAt (term text : List Char) (p : Nat) : Bool :=
  decide ((text.drop p).take term.length = term)
    && boundaryAt text p && boundaryAt text (p + term.length)

/-- The regex search for the term wrapped in word boundaries: true when
some position of the text carries a match. -/
def reSearchWord (term text : List Char) : Bool :=
  (List.range (text.length + 1)).any (fun p => matchTermAt term text p)

/-- Python values that may arrive in the description column: a string or
a non-string such as None or a number. -/
inductive PyVal where
  | str (s : String)
  | none
  | int (n : Int)

/-- Whether the value is a string, the isinstance test of extract_skills. -/
def PyVal.isString : PyVal → Bool
  | .str _ => true
  | _ => false

/-- Embedding of extract_skills from app.py: non-strings yield the empty
result; for a string the normalised text is searched for every vocabulary
term with word boundaries. The Python code collects matches into a set;
the embedding returns the matching terms in vocabulary order, which
represents that set. -/
def extract_skills : PyVal → List String
  | .str description =>
      let text := normalizeText description
      FLAT_SKILLS.filter (fun skill => reSearchWord skill.toList text)
  | _ => []

/-- Dense co-occurrence table, read at a pair of skill names. The Python
dict carries keys for the restriction set only; entries outside it are
never written by the loop and the embedding extends them with 0. -/
abbrev CoMatrix := String → String → Nat

/-- The ordered index pairs visited by the nested loop
(for i in range(n), for j in range(i, n)) of app.py, expressed on the
list itself: the head paired with every element from the head on, then
the pairs of the tail. -/
def docPairs : List String → List (String × String)
  | [] => []
  | x :: xs => (x :: xs).map (fun y => (x, y)) ++ docPairs xs

/-- One guarded increment of the loop body: the entry at the pair is
raised by one exactly when both components lie in the restriction set. -/
def bump (R : List String) (m : CoMatrix) (p : String × String) : CoMatrix :=
  if p.1 ∈ R ∧ p.2 ∈ R then
    fun a b => if (a, b) = p then m a b + 1 else m a b
  else m

/-- Processing of one document by the aggregation loop of app.py. -/
def stepDoc (R : List String) (m : CoMatrix) (skills_list : List String) : CoMatrix :=
  (docPairs skills_list).foldl (bump R)  m

/-- The whole aggregation pass of app.py: start from the all-zero table
and process every per-document skill list in order. R plays the role of
top_12_skills. -/
def buildCoOccurrence (R : List String) (docs : List (List String)) : CoMatrix :=
  docs.foldl (stepDoc R) (fun _ _ => 0)

/-- Number of visited pairs of one document whose components are the two
given skills, in that order. -/
def pairHits (a b : String) (l : List String) : Nat :=
  (docPairs l).countP (fun p => decide (p = (a, b)))

/-- Outcome of the single HTTP call of ask_llm in local_llm.py: a body
that arrived with status 200, an HTTP error status, or a timeout. -/
inductive ServiceOutcome where
  | ok (body : String)
  | httpError (status : Nat)
  | timeout

/-- Whether the call failed (raise_for_status raises, or the request
timed out). -/
def ServiceOutcome.isFailure : ServiceOutcome → Bool
  | .ok _ => false
  | _ => true

/-- Embedding of ask_llm from local_llm.py: the response body is
returned on success; an HTTP error or timeout raises, modelled as the
error branch. The function installs no handler of its own, so every
failure propagates to the caller. -/
def ask_llm (user_query market_context : String) (outcome : ServiceOutcome) :
    Except String String :=
  match outcome with
  | .ok body => .ok body
  | .httpError status => .error ("HTTPError " ++ toString status ++ " for query " ++ user_query ++ " " ++ market_context)
  | .timeout => .error "ReadTimeout"

/-- The two session-state slots used by the sidebar of app.py. -/
structure SessionState where
  ai_query : String
  ai_response : String

/-- The blank-query test of the handler: not query.strip() in Python,
true exactly when the query consists solely of whitespace. -/
def isBlank (s : String) : Bool :=
  s.toList.all Char.isWhitespace

/-- Embedding of the Ask-AI button handler of app.py: a blank query only
warns; otherwise ask_llm is called and its result stored in ai_response.
The handler installs no handler either, so a raised exception aborts the
script run; Streamlit preserves the session state across the abort, so
the first component is the state after the run and the second the
uncaught exception when one escaped. -/
def runAskAI (st : SessionState) (market_context : String) (outcome : ServiceOutcome) :
    SessionState × Option String :=
  if isBlank st.ai_query then (st, Option.none)
  else
    match ask_llm st.ai_query market_context outcome with
    | .ok r => (⟨st.ai_query, r⟩, Option.none)
    | .error e => (st, Option.some e)

/-- Membership in a cons cell whose head is a different value. -/
theorem mem_cons_ne {x b : String} {t : List String} (h : x ≠ b) :
    (b ∈ x :: t) ↔ b ∈ t := by
  constructor
  · intro hb
    rcases List.mem_cons.mp hb with h1 | h1
    · exact absurd h1.symm h
    · exact h1
  · exact fun hb => List.mem_cons_of_mem x hb

/-- Unfolding of the visited pairs at a cons cell. -/
theorem docPairs_cons (x : String) (xs : List String) :
    docPairs (x :: xs) = (x :: xs).map (fun y => (x, y)) ++ docPairs xs := rfl

/-- Pointwise reading of one guarded increment. -/
theorem bump_apply (R : List String) (m : CoMatrix) (p : String × String) (a b : String) :
    bump R m p a b
      = if p.1 ∈ R ∧ p.2 ∈ R ∧ (a, b) = p then m a b + 1 else m a b := by
  by_cases hR : p.1 ∈ R ∧ p.2 ∈ R
  · by_cases hp : (a, b) = p
    · have hc : p.1 ∈ R ∧ p.2 ∈ R ∧ (a, b) = p := ⟨hR.1, hR.2, hp⟩
      simp only [bump, if_pos hR, if_pos hp, if_pos hc]
    · have hc : ¬(p.1 ∈ R ∧ p.2 ∈ R ∧ (a, b) = p) := fun h => hp h.2.2
      simp only [bump, if_pos hR, if_neg hp, if_neg hc]
  · have hc : ¬(p.1 ∈ R ∧ p.2 ∈ R ∧ (a, b) = p) := fun h => hR ⟨h.1, h.2.1⟩
    simp only [bump, if_neg hR, if_neg hc]

/-- Entry tracking for the inner fold: each visited pair raises exactly
the entry it names, and only when both components lie in the restriction
set. -/
theorem foldl_bump_entry (R : List String) (ps : List (String × String)) (m : CoMatrix)
    (a b : String) :
    ps.foldl (bump R) m a b
      = m a b + (if a ∈ R ∧ b ∈ R then ps.countP (fun p => decide (p = (a, b))) else 0) := by
  induction ps generalizing m with
  | nil => simp
  | cons p ps ih =>
    rw [List.foldl_cons, ih, List.countP_cons, bump_apply]
    by_cases hp : p = (a, b)
    · subst hp
      by_cases hR : a ∈ R ∧ b ∈ R
      · have hc : ((a, b) : String × String).1 ∈ R ∧ ((a, b) : String × String).2 ∈ R
            ∧ ((a, b) : String × String) = (a, b) := ⟨hR.1, hR.2, rfl⟩
        rw [if_pos hc, if_pos hR, if_pos hR]
        simp only [decide_eq_true_eq]
        simp
        omega
      · have hc : ¬(((a, b) : String × String).1 ∈ R ∧ ((a, b) : String × String).2 ∈ R
            ∧ ((a, b) : String × String) = (a, b)) := fun h => hR ⟨h.1, h.2.1⟩
        rw [if_neg hc, if_neg hR, if_neg hR]
    · have hc : ¬(p.1 ∈ R ∧ p.2 ∈ R ∧ (a, b) = p) := fun h => hp h.2.2.symm
      have h3 : (decide (p = (a, b))) = false := decide_eq_false hp
      rw [if_neg hc, h3]
      simp

/-- Every pair visited for a document draws both components from that
document. -/
theorem mem_docPairs {l : List String} {p : String × String} (h : p ∈ docPairs l) :
    p.1 ∈ l ∧ p.2 ∈ l := by
  induction l with
  | nil => simp [docPairs] at h
  | cons x xs ih =>
    simp only [docPairs, List.mem_append, List.mem_map] at h
    rcases h with ⟨y, hy, rfl⟩ | h
    · exact ⟨List.mem_cons_self x xs, hy⟩
    · rcases ih h with ⟨h1, h2⟩
      exact ⟨List.mem_cons_of_mem x h1, List.mem_cons_of_mem x h2⟩

/-- In a duplicate-free list each value is hit exactly once, or never. -/
theorem countP_eq_single {xs : List String} (hxs : xs.Nodup) (b : String) :
    xs.countP (fun y => decide (y = b)) = if b ∈ xs then 1 else 0 := by
  induction xs with
  | nil => simp
  | cons x t ih =>
    rcases List.nodup_cons.mp hxs with ⟨hx, ht⟩
    rw [List.countP_cons]
    by_cases hxb : x = b
    · subst hxb
      simp [ih ht, hx, List.mem_cons_self]
    · rw [ih ht]
      by_cases hbt : b ∈ t
      · simp [hbt, mem_cons_ne hxb, hxb]
      · simp [hbt, mem_cons_ne hxb, hxb]

/-- A document not containing the first skill yields no visited pair
naming it first. -/
theorem pairHits_zero_left {a : String} (b : String) {l : List String}
    (ha : a ∉ l) : pairHits a b l = 0 := by
  unfold pairHits
  rw [List.countP_eq_zero]
  intro p hp hpred
  rw [decide_eq_true_eq] at hpred
  subst hpred
  exact ha (mem_docPairs hp).1

/-- A document not containing the second skill yields no visited pair
naming it second. -/
theorem pairHits_zero_right (a : String) {b : String} {l : List String}
    (hb : b ∉ l) : pairHits a b l = 0 := by
  unfold pairHits
  rw [List.countP_eq_zero]
  intro p hp hpred
  rw [decide_eq_true_eq] at hpred
  subst hpred
  exact hb (mem_docPairs hp).2

/-- Unfolding of the visited pairs of one document at a cons cell. -/
theorem pairHits_cons (a b x : String) (xs : List String) :
    pairHits a b (x :: xs)
      = (x :: xs).countP (fun y => decide (x = a ∧ y = b)) + pairHits a b xs := by
  unfold pairHits
  rw [docPairs_cons, List.countP_append, List.countP_map]
  congr 1
  apply List.countP_congr
  intro y _
  simp [Function.comp, Prod.ext_iff]

/-- For a duplicate-free document the diagonal entry of a skill is hit
exactly once when the document contains it: the inner loop starts at
j = i, so the pair (i, i) is always visited. -/
theorem pairHits_diag {l : List String} (hl : l.Nodup) (a : String) :
    pairHits a a l = if a ∈ l then 1 else 0 := by
  induction l with
  | nil => simp [pairHits, docPairs]
  | cons x xs ih =>
    rcases List.nodup_cons.mp hl with ⟨hx, hxs⟩
    rw [pairHits_cons]
    by_cases hxa : x = a
    · subst hxa
      have hhead : (x :: xs).countP (fun y => decide (x = x ∧ y = x))
          = (x :: xs).countP (fun y => decide (y = x)) := by
        apply List.countP_congr
        intro y _
        simp
      rw [hhead, countP_eq_single hl]
      have hx2 : pairHits x x xs = 0 := pairHits_zero_left x hx
      simp [hx2, List.mem_cons_self]
    · have hhead : (x :: xs).countP (fun y => decide (x = a ∧ y = a)) = 0 := by
        rw [List.countP_eq_zero]
        intro y _ hy
        rw [decide_eq_true_eq] at hy
        exact hxa hy.1
      rw [hhead, ih hxs]
      by_cases hm : a ∈ xs
      · simp [hm, mem_cons_ne hxa]
      · simp [hm, mem_cons_ne hxa]

/-- For a duplicate-free document and two distinct skills, the two
directed entries are hit exactly once in total when the document
contains both, and never otherwise: the loop visits each unordered pair
once, in the order induced by the list. -/
theorem pairHits_add_of_ne {l : List String} (hl : l.Nodup) {a b : String} (hab : a ≠ b) :
    pairHits a b l + pairHits b a l = if a ∈ l ∧ b ∈ l then 1 else 0 := by
  induction l with
  | nil => simp [pairHits, docPairs]
  | cons x xs ih =>
    rcases List.nodup_cons.mp hl with ⟨hx, hxs⟩
    rw [pairHits_cons, pairHits_cons]
    by_cases hxa : x = a
    · subst hxa
      have hhead1 : (x :: xs).countP (fun y => decide (x = x ∧ y = b))
          = (x :: xs).countP (fun y => decide (y = b)) := by
        apply List.countP_congr
        intro y _
        simp
      have hhead2 : (x :: xs).countP (fun y => decide (x = b ∧ y = x)) = 0 := by
        rw [List.countP_eq_zero]
        intro y _ hy
        rw [decide_eq_true_eq] at hy
        exact hab hy.1
      have ht1 : pairHits x b xs = 0 := pairHits_zero_left b hx
      have ht2 : pairHits b x xs = 0 := pairHits_zero_right b hx
      rw [hhead1, hhead2, ht1, ht2, countP_eq_single hl]
      by_cases hm : b ∈ xs
      · simp [mem_cons_ne hab, hm, List.mem_cons_self]
      · simp [mem_cons_ne hab, hm, List.mem_cons_self]
    · by_cases hxb : x = b
      · subst hxb
        have hab2 : x ≠ a := fun h => hxa h
        have hhead1 : (x :: xs).countP (fun y => decide (x = a ∧ y = x)) = 0 := by
          rw [List.countP_eq_zero]
          intro y _ hy
          rw [decide_eq_true_eq] at hy
          exact hab2 hy.1
        have hhead2 : (x :: xs).countP (fun y => decide (x = x ∧ y = a))
            = (x :: xs).countP (fun y => decide (y = a)) := by
          apply List.countP_congr
          intro y _
          simp
        have ht1 : pairHits a x xs = 0 := pairHits_zero_right a hx
        have ht2 : pairHits x a xs = 0 := pairHits_zero_left a hx
        rw [hhead1, hhead2, ht1, ht2, countP_eq_single hl]
        by_cases hm : a ∈ xs
        · simp [mem_cons_ne hab2, hm, List.mem_cons_self]
        · simp [mem_cons_ne hab2, hm, List.mem_cons_self]
      · have hhead1 : (x :: xs).countP (fun y => decide (x = a ∧ y = b)) = 0 := by
          rw [List.countP_eq_zero]
          intro y _ hy
          rw [decide_eq_true_eq] at hy
          exact hxa hy.1
        have hhead2 : (x :: xs).countP (fun y => decide (x = b ∧ y = a)) = 0 := by
          rw [List.countP_eq_zero]
          intro y _ hy
          rw [decide_eq_true_eq] at hy
          exact hxb hy.1
        have hih := ih hxs
        have hgoal : (a ∈ x :: xs ∧ b ∈ x :: xs) ↔ (a ∈ xs ∧ b ∈ xs) := by
          rw [mem_cons_ne hxa, mem_cons_ne hxb]
        rw [hhead1, hhead2]
        by_cases hm : a ∈ xs ∧ b ∈ xs
        · rw [if_pos (hgoal.mpr hm)]
          rw [if_pos hm] at hih
          omega
        · rw [if_neg (fun h => hm (hgoal.mp h))]
          rw [if_neg hm] at hih
          omega

/-- Entry change caused by processing one document. -/
theorem stepDoc_entry (R : List String) (m : CoMatrix) (l : List String) (a b : String) :
    stepDoc R m l a b = m a b + (if a ∈ R ∧ b ∈ R then pairHits a b l else 0) :=
  foldl_bump_entry R (docPairs l) m a b

/-- Closed form of an entry of the built matrix: the total of the pair
hits over the documents when both skills are restricted, zero otherwise. -/
theorem buildCoOccurrence_entry (R : List String) (docs : List (List String)) (a b : String) :
    buildCoOccurrence R docs a b
      = if a ∈ R ∧ b ∈ R then (docs.map (pairHits a b)).sum else 0 := by
  have hfold : ∀ m : CoMatrix, docs.foldl (stepDoc R) m a b
      = m a b + (if a ∈ R ∧ b ∈ R then (docs.map (pairHits a b)).sum else 0) := by
    induction docs with
    | nil => intro m; simp
    | cons l ls ih =>
      intro m
      rw [List.foldl_cons, ih, stepDoc_entry, List.map_cons, List.sum_cons]
      by_cases hR : a ∈ R ∧ b ∈ R
      · simp only [if_pos hR]
        omega
      · simp [hR]
  have h := hfold (fun _ _ => 0)
  simpa [buildCoOccurrence] using h

/-- A list holding two distinct values has at least two entries. -/
theorem two_le_length_of_mem {xs : List String} {a b : String}
    (ha : a ∈ xs) (hb : b ∈ xs) (hab : a ≠ b) : 2 ≤ xs.length := by
  match xs with
  | [] => simp at ha
  | [x] =>
    simp at ha hb
    exact absurd (ha.trans hb.symm) hab
  | x :: y :: t =>
    simp only [List.length_cons]
    omega

/-- The two directed totals over a document collection add up to the
number of documents holding both skills. -/
theorem sum_pairHits_pair (a b : String) (hab : a ≠ b) (docs : List (List String))
    (hnd : ∀ l ∈ docs, l.Nodup) :
    (docs.map (pairHits a b)).sum + (docs.map (pairHits b a)).sum
      = docs.countP (fun l => decide (a ∈ l ∧ b ∈ l)) := by
  induction docs with
  | nil => simp
  | cons l ls ih =>
    have hl := hnd l (List.mem_cons_self l ls)
    have hih := ih (fun t ht => hnd t (List.mem_cons_of_mem l ht))
    rw [List.map_cons, List.map_cons, List.sum_cons, List.sum_cons, List.countP_cons]
    have hsum := pairHits_add_of_ne hl hab
    by_cases hm : a ∈ l ∧ b ∈ l
    · rw [if_pos hm] at hsum
      simp only [decide_eq_true_eq]
      rw [if_pos hm]
      omega
    · rw [if_neg hm] at hsum
      simp only [decide_eq_true_eq]
      rw [if_neg hm]
      omega

/-- The diagonal total over a document collection equals the number of
documents holding the skill. -/
theorem sum_pairHits_diag (a : String) (docs : List (List String))
    (hnd : ∀ l ∈ docs, l.Nodup) :
    (docs.map (pairHits a a)).sum = docs.countP (fun l => decide (a ∈ l)) := by
  induction docs with
  | nil => simp
  | cons l ls ih =>
    have hl := hnd l (List.mem_cons_self l ls)
    have hih := ih (fun t ht => hnd t (List.mem_cons_of_mem l ht))
    rw [List.map_cons, List.sum_cons, List.countP_cons]
    have hd := pairHits_diag hl a
    by_cases hm : a ∈ l
    · rw [if_pos hm] at hd
      simp only [decide_eq_true_eq]
      rw [if_pos hm]
      omega
    · rw [if_neg hm] at hd
      simp only [decide_eq_true_eq]
      rw [if_neg hm]
      omega

/-- Characters surviving normalisation are word characters or
whitespace; every other character was replaced by a space. -/
theorem normalizeText_chars {s : String} {c : Char} (h : c ∈ normalizeText s) :
    isWordChar c = true ∨ c.isWhitespace = true := by
  unfold normalizeText at h
  rcases List.mem_map.mp h with ⟨d, _, rfl⟩
  by_cases hd : (isWordChar d || d.isWhitespace) = true
  · rw [if_pos hd]
    rcases Bool.or_eq_true_iff.mp hd with h1 | h1
    · exact Or.inl h1
    · exact Or.inr h1
  · rw [if_neg hd]
    right
    decide

/-- A successful anchored match copies the characters of the term out of
the text. -/
theorem match_chars_subset {term text : List Char} {p : Nat}
    (h : (text.drop p).take term.length = term) {c : Char} (hc : c ∈ term) :
    c ∈ text := by
  rw [← h] at hc
  exact List.drop_subset p text (List.take_subset _ _ hc)

/-- A successful search implies every character of the term occurs in
the text. -/
theorem reSearchWord_chars {term text : List Char} (h : reSearchWord term text = true)
    {c : Char} (hc : c ∈ term) : c ∈ text := by
  unfold reSearchWord at h
  rcases List.any_eq_true.mp h with ⟨p, _, hp⟩
  unfold matchTermAt at hp
  rw [Bool.and_eq_true, Bool.and_eq_true] at hp
  have heq := of_decide_eq_true hp.1.1
  exact match_chars_subset heq hc

/-- Claim C1, counterexample: the built matrix is not symmetric. A
single document listing python before sql puts the whole count into the
entry read as matrix python sql and nothing into matrix sql python: the
loop increments one direction only. -/
theorem coMatrix_asymmetric_cex :
    ¬ (buildCoOccurrence ["python", "sql"] [["python", "sql"]] "python" "sql"
        = buildCoOccurrence ["python", "sql"] [["python", "sql"]] "sql" "python") := by
  decide

/-- Claim C1, amended: each unordered pair of distinct restricted skills
of a document triggers exactly one increment, in the direction induced
by the document order, so the two directed entries add up to the number
of documents containing both skills; the matrix itself need not be
symmetric. -/
theorem coMatrix_pair_total (R : List String) (docs : List (List String)) (a b : String)
    (hab : a ≠ b) (ha : a ∈ R) (hb : b ∈ R) (hnd : ∀ l ∈ docs, l.Nodup) :
    buildCoOccurrence R docs a b + buildCoOccurrence R docs b a
      = docs.countP (fun l => decide (a ∈ l ∧ b ∈ l)) := by
  rw [buildCoOccurrence_entry, buildCoOccurrence_entry, if_pos ⟨ha, hb⟩, if_pos ⟨hb, ha⟩]
  exact sum_pairHits_pair a b hab docs hnd

/-- Witness for the amended claim C1 at a concrete input. -/
theorem coMatrix_pair_total_witness :
    buildCoOccurrence ["python", "sql"] [["python", "sql"], ["python"]] "python" "sql"
      + buildCoOccurrence ["python", "sql"] [["python", "sql"], ["python"]] "sql" "python"
      = [["python", "sql"], ["python"]].countP
          (fun l => decide ("python" ∈ l ∧ "sql" ∈ l)) :=
  coMatrix_pair_total _ _ _ _ (by decide) (by decide) (by decide) (by decide)

/-- Claim C2, counterexample: the diagonal entry of a skill is
incremented by a document containing it, because the inner loop starts
at j = i and the pair (i, i) passes the restriction test. -/
theorem coMatrix_diagonal_cex :
    buildCoOccurrence ["python", "sql"] [["python", "sql"]] "python" "python" ≠ 0 := by
  decide

/-- Claim C2, amended: the diagonal entry of a restricted skill equals
the number of processed documents whose skill list contains it — one
increment per such document via the pair (i, i), not zero. -/
theorem coMatrix_diagonal_count (R : List String) (docs : List (List String)) (a : String)
    (ha : a ∈ R) (hnd : ∀ l ∈ docs, l.Nodup) :
    buildCoOccurrence R docs a a = docs.countP (fun l => decide (a ∈ l)) := by
  rw [buildCoOccurrence_entry, if_pos ⟨ha, ha⟩]
  exact sum_pairHits_diag a docs hnd

/-- Witness for the amended claim C2 at a concrete input. -/
theorem coMatrix_diagonal_count_witness :
    buildCoOccurrence ["python", "sql"] [["python"], ["sql"], ["python", "sql"]] "python" "python"
      = [["python"], ["sql"], ["python", "sql"]].countP (fun l => decide ("python" ∈ l)) :=
  coMatrix_diagonal_count _ _ _ (by decide) (by decide)

/-- Claim C3, counterexample: a document contributing exactly one
relevant skill does change the matrix — it bumps the diagonal entry of
that skill. -/
theorem singleton_doc_changes_matrix_cex :
    stepDoc ["python"] (fun _ _ => 0) ["python"] "python" "python" ≠ 0 := by
  decide

/-- Claim C3, amended: a document whose skill list contains at most one
skill of the restriction set leaves every off-diagonal entry unchanged,
and changes a diagonal entry only by the single increment for the one
contained restricted skill. -/
theorem doc_few_relevant_effect (R : List String) (m : CoMatrix) (l : List String)
    (hl : l.Nodup) (hrel : (l.filter (fun s => decide (s ∈ R))).length ≤ 1) :
    (∀ a b, a ≠ b → stepDoc R m l a b = m a b)
      ∧ (∀ a, stepDoc R m l a a = m a a + (if a ∈ l ∧ a ∈ R then 1 else 0)) := by
  constructor
  · intro a b hab
    rw [stepDoc_entry]
    by_cases hR : a ∈ R ∧ b ∈ R
    · rw [if_pos hR]
      have hsum := pairHits_add_of_ne hl hab
      by_cases hm : a ∈ l ∧ b ∈ l
      · exfalso
        have haf : a ∈ l.filter (fun s => decide (s ∈ R)) :=
          List.mem_filter.mpr ⟨hm.1, decide_eq_true hR.1⟩
        have hbf : b ∈ l.filter (fun s => decide (s ∈ R)) :=
          List.mem_filter.mpr ⟨hm.2, decide_eq_true hR.2⟩
        have h2 := two_le_length_of_mem haf hbf hab
        omega
      · rw [if_neg hm] at hsum
        omega
    · rw [if_neg hR]
      omega
  · intro a
    rw [stepDoc_entry]
    by_cases hR : a ∈ R
    · rw [if_pos ⟨hR, hR⟩, pairHits_diag hl]
      by_cases hm : a ∈ l
      · rw [if_pos hm, if_pos ⟨hm, hR⟩]
      · rw [if_neg hm, if_neg (fun h : a ∈ l ∧ a ∈ R => hm h.1)]
    · rw [if_neg (fun h : a ∈ R ∧ a ∈ R => hR h.1),
        if_neg (fun h : a ∈ l ∧ a ∈ R => hR h.2)]

/-- Witness for the amended claim C3 at a concrete input. -/
theorem doc_few_relevant_effect_witness :
    stepDoc ["python"] (fun _ _ => 0) ["python"] "python" "sql" = 0
      ∧ stepDoc ["python"] (fun _ _ => 0) ["python"] "python" "python" = 1 := by
  have h := doc_few_relevant_effect ["python"] (fun _ _ => 0) ["python"]
    (by decide) (by decide)
  refine ⟨h.1 "python" "sql" (by decide), ?_⟩
  rw [h.2 "python"]
  decide

/-- Claim C4: the classifier accepts only when the category is allowed
and some positive keyword occurs in the lowercased concatenated text;
equivalently, failure of either condition forces rejection. -/
theorem is_tech_job_conjunction (title category description : String)
    (h : is_tech_job title category description = true) :
    category ∈ ALLOWED_CATEGORIES
      ∧ TECH_KEYWORDS.any
          (fun word => substrOf word.toList (lowerStr (title ++ " " ++ description)))
        = true := by
  simp only [is_tech_job] at h
  by_cases hneg : NON_TECH_KEYWORDS.any
      (fun word => substrOf word.toList (lowerStr (title ++ " " ++ description))) = true
  · rw [if_pos hneg] at h
    exact absurd h (by simp)
  · rw [if_neg hneg, Bool.and_eq_true] at h
    exact ⟨of_decide_eq_true h.1, h.2⟩

/-- Witness for claim C4 at a concrete accepted posting. -/
theorem is_tech_job_conjunction_witness :
    is_tech_job "Senior Python Developer" "Web Development" "" = true
      ∧ ("Web Development" ∈ ALLOWED_CATEGORIES
          ∧ TECH_KEYWORDS.any (fun word =>
              substrOf word.toList (lowerStr ("Senior Python Developer" ++ " " ++ "")))
            = true) :=
  ⟨by decide, is_tech_job_conjunction _ _ _ (by decide)⟩

/-- Claim C5: any negative keyword occurring in the lowercased
concatenated title and description forces rejection, whatever the
category and the positive keywords. -/
theorem is_tech_job_negative_reject (title category description : String)
    (h : NON_TECH_KEYWORDS.any
        (fun word => substrOf word.toList (lowerStr (title ++ " " ++ description)))
      = true) :
    is_tech_job title category description = false := by
  simp only [is_tech_job]
  rw [if_pos h]

/-- Witness for claim C5 at a concrete rejected posting whose category
is allowed and whose text even holds no negative-free match. -/
theorem is_tech_job_negative_reject_witness :
    NON_TECH_KEYWORDS.any (fun word =>
        substrOf word.toList (lowerStr ("Sales Engineer" ++ " " ++ ""))) = true
      ∧ is_tech_job "Sales Engineer" "Web Development" "" = false :=
  ⟨by decide, is_tech_job_negative_reject _ _ _ (by decide)⟩

/-- Claim C6, counterexample: lowercasing the category flips the
classifier result on a posting that is otherwise accepted — the
category comparison is case sensitive. -/
theorem is_tech_job_category_case_cex :
    ¬ (is_tech_job "Senior Python Developer" "web development" ""
        = is_tech_job "Senior Python Developer" "Web Development" "") := by
  decide

/-- Claim C6, amended: the classifier depends on title and description
only through the lowercased concatenated text, so changing their letter
case never changes the result; the category, by contrast, is compared
case-sensitively against the allowlist, and changing its case can
change the result. -/
theorem is_tech_job_text_case_invariance (title category description t2 d2 : String)
    (h : lowerStr (t2 ++ " " ++ d2) = lowerStr (title ++ " " ++ description)) :
    is_tech_job t2 category d2 = is_tech_job title category description := by
  simp only [is_tech_job]
  rw [h]

/-- Witness for the amended claim C6 at a concrete case change of the
title. -/
theorem is_tech_job_text_case_invariance_witness :
    lowerStr ("PYTHON developer" ++ " " ++ "") = lowerStr ("Python Developer" ++ " " ++ "")
      ∧ is_tech_job "PYTHON developer" "Web Development" ""
          = is_tech_job "Python Developer" "Web Development" "" :=
  ⟨by decide, is_tech_job_text_case_invariance _ _ _ _ _ (by decide)⟩

/-- Claim C7: with the vocabulary containing both java and javascript,
the extractor on the text I use JavaScript daily finds exactly the term
javascript — java does not match inside javascript because the match
must be bounded by non-word characters or string edges on both sides. -/
theorem extract_skills_whole_word :
    extract_skills (PyVal.str "I use JavaScript daily") = ["javascript"] := by
  decide

/-- Claim C8: a non-string input yields the empty result and no error. -/
theorem extract_skills_non_string (v : PyVal) (h : v.isString = false) :
    extract_skills v = [] := by
  cases v with
  | str s => simp [PyVal.isString] at h
  | none => rfl
  | int n => rfl

/-- Witness for claim C8 at the two inputs named by the specification. -/
theorem extract_skills_non_string_witness :
    extract_skills PyVal.none = [] ∧ extract_skills (PyVal.int 123) = [] :=
  ⟨extract_skills_non_string PyVal.none rfl, extract_skills_non_string (PyVal.int 123) rfl⟩

/-- Claim C10: every term the extractor returns consists of word
characters and whitespace only — normalisation replaces punctuation in
the text by spaces while the search pattern keeps the literal term — so
the vocabulary entries c++ and next.js can never be returned. -/
theorem extract_skills_no_punct_terms (v : PyVal) (term : String)
    (h : term ∈ extract_skills v) :
    (∀ c ∈ term.toList, isWordChar c = true ∨ c.isWhitespace = true)
      ∧ term ≠ "c++" ∧ term ≠ "next.js" := by
  have hchars : ∀ c ∈ term.toList, isWordChar c = true ∨ c.isWhitespace = true := by
    cases v with
    | str s =>
        simp only [extract_skills] at h
        have h2 := (List.mem_filter.mp h).2
        intro c hc
        exact normalizeText_chars (reSearchWord_chars h2 hc)
    | none => simp [extract_skills] at h
    | int n => simp [extract_skills] at h
  refine ⟨hchars, ?_, ?_⟩
  · intro hterm
    subst hterm
    have hplus := hchars '+' (by decide)
    revert hplus
    decide
  · intro hterm
    subst hterm
    have hdot := hchars '.' (by decide)
    revert hdot
    decide

/-- Witness for claim C10 at a concrete extraction. -/
theorem extract_skills_no_punct_terms_witness :
    "python" ∈ extract_skills (PyVal.str "python developer") ∧ "python" ≠ "c++" :=
  ⟨by decide,
    (extract_skills_no_punct_terms (PyVal.str "python developer") "python" (by decide)).2.1⟩

/-- Claim C9, counterexample: a timeout of the advice service is not
turned into a reported recoverable message — the exception escapes the
Ask-AI handler and aborts the script run. -/
theorem ask_llm_failure_crashes_cex :
    (runAskAI ⟨"What skills am I missing?", ""⟩ "ctx" ServiceOutcome.timeout).2
      ≠ Option.none := by
  decide

/-- Claim C9, amended: a failure or timeout of the advice service
propagates uncaught out of ask_llm and out of the Ask-AI handler,
aborting the script run instead of being reported as a recoverable
message; the session state, ai_response included, is left unchanged by
the failed call. -/
theorem ask_llm_failure_propagates (st : SessionState) (market_context : String)
    (o : ServiceOutcome) (hq : isBlank st.ai_query = false) (ho : o.isFailure = true) :
    (runAskAI st market_context o).1 = st
      ∧ (runAskAI st market_context o).2.isSome = true := by
  have hq2 : ¬(isBlank st.ai_query = true) := by simp [hq]
  cases o with
  | ok body => simp [ServiceOutcome.isFailure] at ho
  | httpError status =>
      unfold runAskAI
      rw [if_neg hq2]
      exact ⟨rfl, rfl⟩
  | timeout =>
      unfold runAskAI
      rw [if_neg hq2]
      exact ⟨rfl, rfl⟩

/-- Witness for the amended claim C9 at a concrete failing call. -/
theorem ask_llm_failure_propagates_witness :
    (runAskAI ⟨"Which jobs should I apply to?", ""⟩ "ctx" ServiceOutcome.timeout).1
        = (⟨"Which jobs should I apply to?", ""⟩ : SessionState)
      ∧ (runAskAI ⟨"Which jobs should I apply to?", ""⟩ "ctx" ServiceOutcome.timeout).2.isSome
        = true :=
  ask_llm_failure_propagates _ _ _ (by decide) rfl

end JobiFy

example : JobiFy.is_tech_job "Senior Python Developer" "Web Development" "" = true := by decide

example : JobiFy.is_tech_job "Sales Engineer" "Web Development" "" = false := by decide

example : JobiFy.is_tech_job "Senior Python Developer" "web development" "" = false := by decide

example : JobiFy.extract_skills (.str "I use JavaScript daily") = ["javascript"] := by decide

example : JobiFy.extract_skills (.str "Python/Django stack") = ["python", "django"] := by decide

example : JobiFy.extract_skills (.str "c++ and next.js developer") = [] := by decide

example : JobiFy.extract_skills .none = [] := rfl

example :
    JobiFy.buildCoOccurrence ["python", "sql"] [["python", "sql"]] "python" "sql" = 1 := by
  decide

example :
    JobiFy.buildCoOccurrence ["python", "sql"] [["python", "sql"]] "sql" "python" = 0 := by
  decide

example :
    JobiFy.buildCoOccurrence ["python", "sql"] [["python", "sql"]] "python" "python" = 1 := by
  decide

example :
    (JobiFy.runAskAI ⟨"What skills am I missing?", ""⟩ "ctx" .timeout).2 =
      Option.some "ReadTimeout" := by
  decide
